import Mathlib

/-!
Shallow embedding of `src/server.js` (AI Dealer Poker), in-memory storage
backend (`useRedis = false` path).

Modelling decisions, all traceable to the source:
* JS `Map` objects (`rooms`, `transactions`) become association lists with
  `Map.get` / `Map.set` semantics (`alistGet` / `alistSet`): `set` overwrites
  an existing key in place and appends a fresh key at the end, exactly as a
  JS `Map` preserves insertion order.
* The nested `transactions` store (`roomId -> playerId -> array`) is kept
  nested, mirroring `saveTransaction` / `getTransactions` in the source.
* JS numbers carrying money are modelled as `Int` (negative amounts are
  representable because the source performs no validation; non-finite floats
  are outside this embedding and noted where a claim mentions them).
* Nondeterministic identifiers (`uuidv4()`, `generateNickname()`) and wall
  clock timestamps are passed in as explicit parameters (`genId`, `genNick`,
  `now`); transaction ids and timestamps, which no claim inspects, are not
  carried on the `Tx` record.
* Each `socket.on` handler becomes a pure function from a `ServerState` and
  the command payload to the new `ServerState` plus the list of emitted
  events.  `Emit.errorMsg` models `socket.emit('error', ...)` — delivered
  only to the originating connection — while every other constructor models
  `io.to(roomId).emit(...)`, a broadcast to the session's subscribers.
* `socket.join`, `socket.playerId`, `console.log` and the HTTP surface are
  transport/glue outside the core and are not modelled, except for
  `POST /api/rooms` (`createRoom`), which builds the initial session
  document.
-/

/-- A player record, as built in the `joinRoom` handler
(`{id, socketId, nickname, fluxaAgentId, buyin, finalChips, profit,
joinedAt}`); `socketId` and `joinedAt` are transport/clock bookkeeping that
no claim inspects and are omitted.  `finalChips: null` is `none`. -/
structure Player where
  id : String
  nickname : String
  fluxaAgentId : Option String
  buyin : Int
  finalChips : Option Int
  profit : Int
  deriving DecidableEq, Repr

/-- A ledger transaction, as built in `saveTransaction`
(`{id, roomId, playerId, type, amount, note, timestamp}`); the generated
`id`/`timestamp` and the redundant `roomId`/`playerId` copies (the log is
already keyed by that pair) are omitted. -/
structure Tx where
  type : String
  amount : Int
  note : String
  deriving DecidableEq, Repr

/-- One entry of the `finalChips` array handed to the `finalizeRoom`
handler: `{playerId, amount}`. -/
structure FinalChip where
  playerId : String
  amount : Int
  deriving DecidableEq, Repr

/-- A session document, as built in `POST /api/rooms`
(`{id, name, status, players, createdAt}`) and extended by `finalizeRoom`
(`room.finalChips`, `room.endedAt`).  `status` is one of the source's string
literals `"waiting"`, `"playing"`, `"ended"`; `createdAt` is omitted;
`endedAt` holds the `now` parameter of the finalize that set it. -/
structure Room where
  id : String
  name : String
  status : String
  players : List Player
  finalChips : Option (List FinalChip)
  endedAt : Option Nat
  deriving DecidableEq, Repr

/-- The in-memory stores: `const rooms = new Map()` and
`const transactions = new Map()` (the `players` map in the source is never
written or read by any handler). -/
structure ServerState where
  rooms : List (String × Room)
  transactions : List (String × List (String × List Tx))
  deriving DecidableEq, Repr

/-- A summary row of the `roomEnded` broadcast:
`{nickname, buyin, finalChips, profit}`. -/
structure SummaryEntry where
  nickname : String
  buyin : Int
  finalChips : Option Int
  profit : Int
  deriving DecidableEq, Repr

/-- The events a handler can emit.  `errorMsg` is `socket.emit('error',
{message})`, sent only to the originating connection; the others are
`io.to(roomId).emit(...)` broadcasts with their payload fields. -/
inductive Emit where
  | playerJoined (roomId : String) (player : Player) (players : List Player)
  | buyinEv (roomId : String) (playerId : String) (player : Player)
      (amount : Int) (note : Option String)
  | recordResultEv (roomId : String) (playerId : String) (player : Player)
      (type : String) (amount : Int) (note : Option String)
  | roomEnded (roomId : String) (room : Room) (summary : List SummaryEntry)
  | errorMsg (message : String)
  deriving DecidableEq, Repr

/-- `Map.get`: first (unique) binding of the key, `none` when absent. -/
def alistGet {α : Type} : List (String × α) → String → Option α
  | [], _ => none
  | (k, v) :: rest, key => if k = key then some v else alistGet rest key

/-- `Map.set`: overwrite an existing binding in place, append a fresh key at
the end (JS `Map` insertion-order semantics). -/
def alistSet {α : Type} : List (String × α) → String → α → List (String × α)
  | [], key, v => [(key, v)]
  | (k, w) :: rest, key, v =>
      if k = key then (key, v) :: rest else (k, w) :: alistSet rest key v

/-- `room.players.find(p => p.id === playerId)`. -/
def findPlayer : List Player → String → Option Player
  | [], _ => none
  | p :: rest, pid => if p.id = pid then some p else findPlayer rest pid

/-- In-place mutation of the player object returned by `find`: rewrite the
first roster entry whose id matches, leave everything else untouched. -/
def updateFirst : List Player → String → (Player → Player) → List Player
  | [], _, _ => []
  | p :: rest, pid, f =>
      if p.id = pid then f p :: rest else p :: updateFirst rest pid f

/-- `saveTransaction(roomId, playerId, tx)` on the in-memory path: create
the missing nesting levels, then push the transaction at the end of the
per-(room, player) array. -/
def saveTransaction (st : ServerState) (roomId playerId : String) (tx : Tx) :
    ServerState :=
  let roomTx := (alistGet st.transactions roomId).getD []
  let playerTx := (alistGet roomTx playerId).getD []
  { st with
    transactions :=
      alistSet st.transactions roomId
        (alistSet roomTx playerId (playerTx ++ [tx])) }

/-- `getTransactions(roomId, playerId)` on the in-memory path:
`transactions.get(roomId)?.[playerId] || []`. -/
def getTransactions (st : ServerState) (roomId playerId : String) : List Tx :=
  match alistGet st.transactions roomId with
  | none => []
  | some roomTx => (alistGet roomTx playerId).getD []

/-- `POST /api/rooms`: build a session document with `status: 'waiting'` and
an empty roster and store it.  `roomId` stands for `generateRoomId()` and
`defaultName` for the date-based default name. -/
def createRoom (st : ServerState) (roomId : String) (name : Option String)
    (defaultName : String) : ServerState :=
  let room : Room :=
    { id := roomId
      name := name.getD defaultName
      status := "waiting"
      players := []
      finalChips := none
      endedAt := none }
  { st with rooms := alistSet st.rooms roomId room }

/-- The `joinRoom` handler.  `genId` stands for `uuidv4()` and `genNick` for
`generateNickname()`.  A missing room emits the not-found error; a status
other than `waiting`/`playing` emits the room-ended error; otherwise the new
player is appended to the roster, the room is saved, and `playerJoined` is
broadcast with the refreshed roster. -/
def handleJoinRoom (st : ServerState) (roomId : String)
    (nickname fluxaAgentId : Option String) (genId genNick : String) :
    ServerState × List Emit :=
  match alistGet st.rooms roomId with
  | none => (st, [Emit.errorMsg "房间不存在"])
  | some room =>
      if room.status ≠ "waiting" ∧ room.status ≠ "playing" then
        (st, [Emit.errorMsg "房间已结束"])
      else
        let player : Player :=
          { id := genId
            nickname := nickname.getD genNick
            fluxaAgentId := fluxaAgentId
            buyin := 0
            finalChips := none
            profit := 0 }
        let room' := { room with players := room.players ++ [player] }
        (({ st with rooms := alistSet st.rooms roomId room' }),
          [Emit.playerJoined roomId player room'.players])

/-- The mutation `player.buyin = (player.buyin || 0) + amount` applies to
the player object found in the roster (`buyin` is initialised to the number
`0` at join, so the `|| 0` guard never changes the value). -/
def addBuyin (amount : Int) (p : Player) : Player :=
  { p with buyin := p.buyin + amount }

/-- The `buyin` handler.  A missing room or player returns silently
(`if (!room) return;` / `if (!player) return;` — no error event).  Otherwise
the player's cumulative buy-in is incremented, the room saved, a `buyin`
transaction appended (note defaulting to `買入 amount` text), and the
`buyin` event broadcast with the mutated player object. -/
def handleBuyin (st : ServerState) (roomId playerId : String) (amount : Int)
    (note : Option String) : ServerState × List Emit :=
  match alistGet st.rooms roomId with
  | none => (st, [])
  | some room =>
      match findPlayer room.players playerId with
      | none => (st, [])
      | some player =>
          let room' :=
            { room with
              players := updateFirst room.players playerId (addBuyin amount) }
          let st1 := { st with rooms := alistSet st.rooms roomId room' }
          let tx : Tx :=
            { type := "buyin"
              amount := amount
              note := note.getD ("买入 " ++ toString amount) }
          let st2 := saveTransaction st1 roomId playerId tx
          (st2,
            [Emit.buyinEv roomId playerId (addBuyin amount player) amount note])

/-- The `recordResult` handler.  A missing room or player returns silently.
Otherwise it only appends a transaction (the session document is never
saved — no `saveRoom` call exists in this handler) and broadcasts
`recordResult` with the unmodified player object. -/
def handleRecordResult (st : ServerState) (roomId playerId type : String)
    (amount : Int) (note : Option String) : ServerState × List Emit :=
  match alistGet st.rooms roomId with
  | none => (st, [])
  | some room =>
      match findPlayer room.players playerId with
      | none => (st, [])
      | some player =>
          let tx : Tx :=
            { type := type
              amount := amount
              note := note.getD
                (if type = "win" then "赢得 " ++ toString amount
                 else "输掉 " ++ toString amount) }
          let st1 := saveTransaction st roomId playerId tx
          (st1,
            [Emit.recordResultEv roomId playerId player type amount note])

/-- One step of the finalize loop: `player.finalChips = fc.amount;
player.profit = fc.amount - player.buyin;`. -/
def setChips (fc : FinalChip) (p : Player) : Player :=
  { p with finalChips := some fc.amount, profit := fc.amount - p.buyin }

/-- `for (const fc of finalChips) { ... }`: sequentially look up each listed
player in the roster and set their final chips and profit; entries naming no
roster player do nothing. -/
def applyFinalChips (fcs : List FinalChip) (ps : List Player) : List Player :=
  fcs.foldl (fun acc fc => updateFirst acc fc.playerId (setChips fc)) ps

/-- One row of the `roomEnded` summary:
`{nickname: p.nickname, buyin: p.buyin, finalChips: p.finalChips,
profit: p.profit}`. -/
def toSummary (p : Player) : SummaryEntry :=
  { nickname := p.nickname
    buyin := p.buyin
    finalChips := p.finalChips
    profit := p.profit }

/-- The `finalizeRoom` handler.  A missing room returns silently.  There is
no status check of any kind: the final-chips loop runs, `status` is set to
`'ended'`, `room.finalChips` and `room.endedAt` are (over)written, the room
is saved and `roomEnded` is broadcast with the per-player summary.  `now`
stands for `new Date().toISOString()`. -/
def handleFinalizeRoom (st : ServerState) (roomId : String)
    (finalChips : List FinalChip) (now : Nat) : ServerState × List Emit :=
  match alistGet st.rooms roomId with
  | none => (st, [])
  | some room =>
      let room' :=
        { room with
          players := applyFinalChips finalChips room.players
          status := "ended"
          finalChips := some finalChips
          endedAt := some now }
      let st1 := { st with rooms := alistSet st.rooms roomId room' }
      (st1, [Emit.roomEnded roomId room' (room'.players.map toSummary)])

/-- A sequence of `buyin` commands for one (session, player) pair, executed
back to back with no interleaving; only the resulting state is kept. -/
def runBuyins (st : ServerState) (roomId playerId : String)
    (amounts : List Int) : ServerState :=
  amounts.foldl (fun s a => (handleBuyin s roomId playerId a none).1) st

/-- The ledger record a `buyin` command with amount `a` and no explicit note
appends. -/
def buyinTx (a : Int) : Tx :=
  { type := "buyin", amount := a, note := "买入 " ++ toString a }

/-- Pure specification companion of `applyFinalChips`: the cumulative effect
of a final-chips list on one player record (used to express what the
finalize loop does to each roster entry). -/
def applyToPlayer (fcs : List FinalChip) (p : Player) : Player :=
  fcs.foldl (fun q fc => if fc.playerId = q.id then setChips fc q else q) p

/-- A state with no sessions and no transactions. -/
def emptyState : ServerState := ⟨[], []⟩

/-- A player as created by `joinRoom` (buy-in 0, no final chips, profit 0). -/
def freshPlayer : Player := ⟨"P", "nick", none, 0, none, 0⟩

/-- A waiting session holding only `freshPlayer`. -/
def freshRoom : Room := ⟨"R", "night", "waiting", [freshPlayer], none, none⟩

/-- A state holding `freshRoom` and an empty ledger. -/
def freshState : ServerState := ⟨[("R", freshRoom)], []⟩

/-- A player with an accumulated buy-in of 100. -/
def samplePlayer : Player := ⟨"P", "nick", none, 100, none, 0⟩

/-- A waiting session holding only `samplePlayer`. -/
def waitingRoom : Room := ⟨"R", "night", "waiting", [samplePlayer], none, none⟩

/-- A state holding `waitingRoom` and an empty ledger. -/
def waitingState : ServerState := ⟨[("R", waitingRoom)], []⟩

/-- `samplePlayer` after a finalize that assigned them 150 final chips. -/
def endedPlayer : Player := ⟨"P", "nick", none, 100, some 150, 50⟩

/-- An already-finalized session: status ended, settlement recorded. -/
def endedRoom : Room :=
  ⟨"R", "night", "ended", [endedPlayer], some [⟨"P", 150⟩], some 1⟩

/-- A state holding `endedRoom`. -/
def endedState : ServerState := ⟨[("R", endedRoom)], []⟩

/-- Roster player `A` with a cumulative buy-in of 100. -/
def playerA : Player := ⟨"A", "alice", none, 100, none, 0⟩

/-- Roster player `B` with a cumulative buy-in of 40. -/
def playerB : Player := ⟨"B", "bob", none, 40, none, 0⟩

/-- A waiting session holding players `A` and `B`. -/
def twoRoom : Room := ⟨"R", "night", "waiting", [playerA, playerB], none, none⟩

/-- A state holding `twoRoom`. -/
def twoState : ServerState := ⟨[("R", twoRoom)], []⟩

/-- `Map.set` followed by `Map.get` at the same key returns the written
value. -/
theorem alistGet_alistSet_self {α : Type} (m : List (String × α))
    (k : String) (v : α) : alistGet (alistSet m k v) k = some v := by
  induction m with
  | nil => simp [alistGet, alistSet]
  | cons kv rest ih =>
      obtain ⟨k2, w⟩ := kv
      by_cases h : k2 = k
      · simp [alistSet, h, alistGet]
      · simp [alistSet, h, alistGet, ih]

/-- The player returned by `find` carries the id that was searched for. -/
theorem findPlayer_id {ps : List Player} {pid : String} {p : Player}
    (h : findPlayer ps pid = some p) : p.id = pid := by
  induction ps with
  | nil => simp [findPlayer] at h
  | cons q rest ih =>
      by_cases hq : q.id = pid
      · simp [findPlayer, hq] at h
        subst h
        exact hq
      · simp [findPlayer, hq] at h
        exact ih h

/-- The player returned by `find` is a roster member. -/
theorem findPlayer_mem {ps : List Player} {pid : String} {p : Player}
    (h : findPlayer ps pid = some p) : p ∈ ps := by
  induction ps with
  | nil => simp [findPlayer] at h
  | cons q rest ih =>
      by_cases hq : q.id = pid
      · simp [findPlayer, hq] at h
        subst h
        exact List.mem_cons_self _ _
      · simp [findPlayer, hq] at h
        exact List.mem_cons_of_mem _ (ih h)

/-- How `find` interacts with the in-place update of the first matching
roster entry, for an id-preserving update. -/
theorem findPlayer_updateFirst (ps : List Player) (pid2 pid : String)
    (f : Player → Player) (hf : ∀ q, (f q).id = q.id) :
    findPlayer (updateFirst ps pid2 f) pid =
      if pid2 = pid then (findPlayer ps pid).map f else findPlayer ps pid := by
  induction ps with
  | nil =>
      simp only [updateFirst, findPlayer]
      split <;> rfl
  | cons q rest ih =>
      by_cases h : pid2 = pid
      · subst h
        by_cases hq : q.id = pid2
        · simp [updateFirst, hq, findPlayer, hf]
        · simp [updateFirst, hq, findPlayer, ih]
      · by_cases hq2 : q.id = pid2
        · have hq : q.id ≠ pid := by
            rw [hq2]; exact h
          simp [updateFirst, hq2, findPlayer, hf, hq, h]
        · by_cases hq : q.id = pid
          · have h2 : pid ≠ pid2 := fun hh => h hh.symm
            simp [updateFirst, findPlayer, hq, h2, h]
          · simp [updateFirst, hq2, findPlayer, hq, ih, h]

/-- Rewriting the first entry matching some other id keeps every player
whose id differs in the roster. -/
theorem mem_updateFirst_of_ne {p : Player} {ps : List Player} {pid : String}
    (f : Player → Player) (hne : p.id ≠ pid) (hmem : p ∈ ps) :
    p ∈ updateFirst ps pid f := by
  induction ps with
  | nil => simp at hmem
  | cons q rest ih =>
      rcases List.mem_cons.mp hmem with h | h
      · subst h
        simp [updateFirst, hne]
      · by_cases hq : q.id = pid
        · simp only [updateFirst, hq, if_pos rfl]
          exact List.mem_cons_of_mem _ h
        · simp only [updateFirst, hq, if_neg hq]
          exact List.mem_cons_of_mem _ (ih h)

/-- Appending to the per-(room, player) log and reading it back yields the
old log with the new record at the end. -/
theorem getTransactions_saveTransaction (st : ServerState)
    (rid pid : String) (tx : Tx) :
    getTransactions (saveTransaction st rid pid tx) rid pid =
      getTransactions st rid pid ++ [tx] := by
  cases h : alistGet st.transactions rid with
  | none =>
      simp [saveTransaction, getTransactions, h, alistGet_alistSet_self,
        alistGet]
  | some roomTx =>
      cases h2 : alistGet roomTx pid with
      | none =>
          simp [saveTransaction, getTransactions, h, h2,
            alistGet_alistSet_self]
      | some txs =>
          simp [saveTransaction, getTransactions, h, h2,
            alistGet_alistSet_self]

/-- `saveTransaction` never touches the session store. -/
theorem rooms_saveTransaction (st : ServerState) (rid pid : String)
    (tx : Tx) : (saveTransaction st rid pid tx).rooms = st.rooms := rfl

/-- Replacing the session store leaves the ledger reads unchanged. -/
theorem getTransactions_setRooms (st : ServerState)
    (rooms : List (String × Room)) (rid pid : String) :
    getTransactions { st with rooms := rooms } rid pid =
      getTransactions st rid pid := rfl

/-- Unfolding: an empty final-chips list leaves the roster alone. -/
theorem applyFinalChips_nil (ps : List Player) :
    applyFinalChips [] ps = ps := rfl

/-- Unfolding: the finalize loop handles the head entry first. -/
theorem applyFinalChips_cons (fc : FinalChip) (rest : List FinalChip)
    (ps : List Player) :
    applyFinalChips (fc :: rest) ps =
      applyFinalChips rest (updateFirst ps fc.playerId (setChips fc)) := rfl

/-- Unfolding: the per-player effect of an empty final-chips list. -/
theorem applyToPlayer_nil (p : Player) : applyToPlayer [] p = p := rfl

/-- Unfolding: the per-player effect of the head entry. -/
theorem applyToPlayer_cons (fc : FinalChip) (rest : List FinalChip)
    (p : Player) :
    applyToPlayer (fc :: rest) p =
      applyToPlayer rest (if fc.playerId = p.id then setChips fc p else p) :=
  rfl

/-- `setChips` never changes the player id. -/
theorem setChips_id (fc : FinalChip) (p : Player) :
    (setChips fc p).id = p.id := rfl

/-- The finalize loop acts on each roster entry exactly as the per-player
specification function does: finding a player after the loop is finding
them before it and replaying the list on that one record. -/
theorem findPlayer_applyFinalChips (fcs : List FinalChip) :
    ∀ (ps : List Player) (pid : String),
      findPlayer (applyFinalChips fcs ps) pid =
        (findPlayer ps pid).map (applyToPlayer fcs) := by
  induction fcs with
  | nil =>
      intro ps pid
      cases h : findPlayer ps pid <;> simp [applyFinalChips_nil, h,
        applyToPlayer_nil]
  | cons fc rest ih =>
      intro ps pid
      rw [applyFinalChips_cons, ih,
        findPlayer_updateFirst ps fc.playerId pid (setChips fc)
          (fun q => setChips_id fc q)]
      by_cases h : fc.playerId = pid
      · cases hfp : findPlayer ps pid with
        | none => simp [h, hfp]
        | some p =>
            have hid : p.id = pid := findPlayer_id hfp
            simp [h, hfp, applyToPlayer_cons, hid]
      · cases hfp : findPlayer ps pid with
        | none => simp [h, hfp]
        | some p =>
            have hid : p.id = pid := findPlayer_id hfp
            have hne : fc.playerId ≠ p.id := by
              rw [hid]; exact h
            simp [h, hfp, applyToPlayer_cons, hne]

/-- A player named by no entry of the final-chips list is untouched by the
per-player specification function. -/
theorem applyToPlayer_not_mem {fcs : List FinalChip} {p : Player}
    (h : p.id ∉ fcs.map FinalChip.playerId) : applyToPlayer fcs p = p := by
  induction fcs with
  | nil => rfl
  | cons fc rest ih =>
      simp only [List.map_cons, List.mem_cons] at h
      push_neg at h
      obtain ⟨h1, h2⟩ := h
      have hne : fc.playerId ≠ p.id := fun hh => h1 hh.symm
      rw [applyToPlayer_cons, if_neg hne]
      exact ih h2

/-- With no duplicate ids in the final-chips list, the entry naming a
player is the only one that acts on them, and it sets their final chips and
profit. -/
theorem applyToPlayer_eq_setChips {fcs : List FinalChip} {fc : FinalChip}
    {p : Player} (hnd : (fcs.map FinalChip.playerId).Nodup) (hmem : fc ∈ fcs)
    (hid : fc.playerId = p.id) : applyToPlayer fcs p = setChips fc p := by
  induction fcs with
  | nil => simp at hmem
  | cons fc2 rest ih =>
      simp only [List.map_cons, List.nodup_cons] at hnd
      obtain ⟨hnotin, hndrest⟩ := hnd
      rcases List.mem_cons.mp hmem with h | h
      · subst h
        rw [applyToPlayer_cons, if_pos hid]
        have hstay : (setChips fc p).id ∉ rest.map FinalChip.playerId := by
          rw [setChips_id, ← hid]
          exact hnotin
        exact applyToPlayer_not_mem hstay
      · have hne : fc2.playerId ≠ p.id := by
          intro hh
          apply hnotin
          rw [hh, ← hid]
          exact List.mem_map_of_mem FinalChip.playerId h
        rw [applyToPlayer_cons, if_neg hne]
        exact ih hndrest h
    
/-- A roster member named by no entry of the final-chips list is still a
roster member after the finalize loop, unchanged. -/
theorem mem_applyFinalChips {fcs : List FinalChip} :
    ∀ {ps : List Player} {p : Player}, p ∈ ps →
      p.id ∉ fcs.map FinalChip.playerId → p ∈ applyFinalChips fcs ps := by
  induction fcs with
  | nil =>
      intro ps p hmem _
      exact hmem
  | cons fc rest ih =>
      intro ps p hmem hnot
      simp only [List.map_cons, List.mem_cons] at hnot
      push_neg at hnot
      obtain ⟨h1, h2⟩ := hnot
      rw [applyFinalChips_cons]
      exact ih (mem_updateFirst_of_ne _ h1 hmem) h2

/-- What one successful `buyin` command does to the state: the stored room
keeps its status, the named player's cumulative buy-in grows by the amount,
and exactly one `buyin` transaction is appended to that pair's log. -/
theorem handleBuyin_state (st : ServerState) (rid pid : String) (a : Int)
    (note : Option String) (room : Room) (p : Player)
    (hr : alistGet st.rooms rid = some room)
    (hp : findPlayer room.players pid = some p) :
    ∃ room',
      alistGet (handleBuyin st rid pid a note).1.rooms rid = some room' ∧
      room'.status = room.status ∧
      findPlayer room'.players pid = some (addBuyin a p) ∧
      getTransactions (handleBuyin st rid pid a note).1 rid pid =
        getTransactions st rid pid ++
          [{ type := "buyin", amount := a,
             note := note.getD ("买入 " ++ toString a) }] := by
  refine ⟨{ room with
    players := updateFirst room.players pid (addBuyin a) }, ?_, rfl, ?_, ?_⟩
  · simp [handleBuyin, hr, hp, rooms_saveTransaction, alistGet_alistSet_self]
  · rw [findPlayer_updateFirst room.players pid pid (addBuyin a)
      (fun q => rfl), if_pos rfl, hp]
    rfl
  · simp [handleBuyin, hr, hp, getTransactions_saveTransaction,
      getTransactions_setRooms]

/-- The emitted events of one successful `buyin` command: a single `buyin`
broadcast carrying the mutated player object. -/
theorem handleBuyin_emits (st : ServerState) (rid pid : String) (a : Int)
    (note : Option String) (room : Room) (p : Player)
    (hr : alistGet st.rooms rid = some room)
    (hp : findPlayer room.players pid = some p) :
    (handleBuyin st rid pid a note).2 =
      [Emit.buyinEv rid pid (addBuyin a p) a note] := by
  simp [handleBuyin, hr, hp]

/-- Iterating `runBuyins`: the room survives with its status, the player's
cumulative buy-in grows by the sum of the amounts, and the pair's ledger
grows by one `buyin` record per amount, in issue order. -/
theorem runBuyins_spec (rid pid : String) :
    ∀ (amounts : List Int) (st : ServerState) (room : Room) (p : Player),
      alistGet st.rooms rid = some room →
      findPlayer room.players pid = some p →
      ∃ room',
        alistGet (runBuyins st rid pid amounts).rooms rid = some room' ∧
        room'.status = room.status ∧
        findPlayer room'.players pid =
          some { p with buyin := p.buyin + amounts.sum } ∧
        getTransactions (runBuyins st rid pid amounts) rid pid =
          getTransactions st rid pid ++ amounts.map buyinTx := by
  intro amounts
  induction amounts with
  | nil =>
      intro st room p hr hp
      refine ⟨room, hr, rfl, ?_, by simp [runBuyins]⟩
      simpa using hp
  | cons a rest ih =>
      intro st room p hr hp
      obtain ⟨room1, hr1, hs1, hp1, htx1⟩ :=
        handleBuyin_state st rid pid a none room p hr hp
      have hrun : runBuyins st rid pid (a :: rest) =
          runBuyins (handleBuyin st rid pid a none).1 rid pid rest := rfl
      obtain ⟨room', hr', hs', hp', htx'⟩ :=
        ih (handleBuyin st rid pid a none).1 room1 (addBuyin a p) hr1 hp1
      refine ⟨room', by rw [hrun]; exact hr', by rw [hs', hs1], ?_, ?_⟩
      · rw [hp']
        simp [addBuyin, add_assoc]
      · rw [hrun, htx', htx1]
        simp [buyinTx]

/-- Claim C1: for every sequence of n buy-in commands with amounts a1..an
for one (session, player) pair with no interleaving, starting from a player
with cumulative buy-in 0 and an empty log, the player's cumulative buy-in
field ends at the sum of the amounts, and the pair's transaction history
has length n with the same amounts in issue order (each entry a `buyin`
record). -/
theorem c1_buyin_sequence_sums (st : ServerState) (rid pid : String)
    (amounts : List Int) (room : Room) (p : Player)
    (hr : alistGet st.rooms rid = some room)
    (hp : findPlayer room.players pid = some p)
    (hb0 : p.buyin = 0)
    (htx0 : getTransactions st rid pid = []) :
    ∃ room',
      alistGet (runBuyins st rid pid amounts).rooms rid = some room' ∧
      findPlayer room'.players pid = some { p with buyin := amounts.sum } ∧
      getTransactions (runBuyins st rid pid amounts) rid pid =
        amounts.map buyinTx ∧
      (getTransactions (runBuyins st rid pid amounts) rid pid).length =
        amounts.length ∧
      (getTransactions (runBuyins st rid pid amounts) rid pid).map Tx.amount =
        amounts := by
  obtain ⟨room', h1, _, h3, h4⟩ := runBuyins_spec rid pid amounts st room p hr hp
  rw [hb0, zero_add] at h3
  rw [htx0, List.nil_append] at h4
  refine ⟨room', h1, h3, h4, ?_, ?_⟩
  · rw [h4]; simp
  · rw [h4, List.map_map]
    show List.map (fun a => a) amounts = amounts
    simp

/-- Witness for C1: three buy-ins of 10, 20, 5 against a fresh player leave
a cumulative buy-in of 35 and a three-entry ledger with those amounts. -/
theorem c1_buyin_sequence_sums_witness :
    ∃ room',
      alistGet (runBuyins freshState "R" "P" [10, 20, 5]).rooms "R" =
        some room' ∧
      findPlayer room'.players "P" =
        some { freshPlayer with buyin := ([10, 20, 5] : List Int).sum } ∧
      getTransactions (runBuyins freshState "R" "P" [10, 20, 5]) "R" "P" =
        ([10, 20, 5] : List Int).map buyinTx ∧
      (getTransactions (runBuyins freshState "R" "P" [10, 20, 5])
        "R" "P").length = ([10, 20, 5] : List Int).length ∧
      (getTransactions (runBuyins freshState "R" "P" [10, 20, 5])
        "R" "P").map Tx.amount = [10, 20, 5] :=
  c1_buyin_sequence_sums freshState "R" "P" [10, 20, 5] freshRoom freshPlayer
    rfl rfl rfl rfl

/-- Counterexample to claim C2 as stated: a `buyin` against a session whose
status is already `ended` still changes the named player's cumulative
buy-in field (from 100 to 150) — the handler performs no status check, so
the fields are not immutable once status = ended. -/
theorem c2_counterexample :
    endedRoom.status = "ended" ∧
    ((alistGet endedState.rooms "R").bind
        (fun r => findPlayer r.players "P")).map Player.buyin = some 100 ∧
    ((alistGet (handleBuyin endedState "R" "P" 50 none).1.rooms "R").bind
        (fun r => findPlayer r.players "P")).map Player.buyin = some 150 := by
  decide

/-- Claim C2, amended: once status = ended only `joinRoom` is gated — it is
rejected with the room-ended error and leaves the state unchanged — while
`buyin` is not status-gated at all: a buy-in against an ended session still
adds the amount to the named player's cumulative buy-in (and finalize can
re-run, see C3). -/
theorem c2_ended_only_join_gated (st : ServerState) (rid pid : String)
    (a : Int) (note nickname agentRef : Option String)
    (genId genNick : String) (room : Room) (p : Player)
    (hr : alistGet st.rooms rid = some room)
    (hs : room.status = "ended")
    (hp : findPlayer room.players pid = some p) :
    handleJoinRoom st rid nickname agentRef genId genNick =
      (st, [Emit.errorMsg "房间已结束"]) ∧
    ∃ room',
      alistGet (handleBuyin st rid pid a note).1.rooms rid = some room' ∧
      findPlayer room'.players pid = some (addBuyin a p) := by
  constructor
  · have h1 : ("ended" : String) ≠ "waiting" := by decide
    have h2 : ("ended" : String) ≠ "playing" := by decide
    simp [handleJoinRoom, hr, hs, h1, h2]
  · obtain ⟨room', h1, _, h3, _⟩ :=
      handleBuyin_state st rid pid a note room p hr hp
    exact ⟨room', h1, h3⟩

/-- Witness for the amended C2 at the concrete ended session. -/
theorem c2_ended_only_join_gated_witness :
    handleJoinRoom endedState "R" none none "Q" "n2" =
      (endedState, [Emit.errorMsg "房间已结束"]) ∧
    ∃ room',
      alistGet (handleBuyin endedState "R" "P" 50 none).1.rooms "R" =
        some room' ∧
      findPlayer room'.players "P" = some (addBuyin 50 endedPlayer) :=
  c2_ended_only_join_gated endedState "R" "P" 50 none none none "Q" "n2"
    endedRoom endedPlayer rfl rfl rfl

/-- Counterexample to claim C3 as stated: a second `finalizeRoom` against an
already-ended session is not rejected — it changes the session document
(final chips overwritten from 150 to 200, end timestamp overwritten) and
emits a broadcast instead of leaving everything unchanged. -/
theorem c3_counterexample :
    (alistGet endedState.rooms "R").map Room.status = some "ended" ∧
    (handleFinalizeRoom endedState "R" [⟨"P", 200⟩] 2).1 ≠ endedState ∧
    (handleFinalizeRoom endedState "R" [⟨"P", 200⟩] 2).2 ≠ [] ∧
    ((alistGet (handleFinalizeRoom endedState "R" [⟨"P", 200⟩] 2).1.rooms
        "R").bind (fun r => findPlayer r.players "P")).map Player.finalChips =
      some (some 200) ∧
    (alistGet (handleFinalizeRoom endedState "R" [⟨"P", 200⟩] 2).1.rooms
        "R").map Room.endedAt = some (some 2) := by
  decide

/-- Claim C3, amended: a finalize against a session already in status ended
is not rejected (there is no AlreadyEnded check): the settlement loop runs
again over the given final-chips list, the session's final-chips snapshot
and end timestamp are overwritten, the status stays ended, and `roomEnded`
is broadcast anew. -/
theorem c3_refinalize_reapplies (st : ServerState) (rid : String)
    (fcs : List FinalChip) (now : Nat) (room : Room)
    (hr : alistGet st.rooms rid = some room)
    (_hs : room.status = "ended") :
    ∃ room',
      alistGet (handleFinalizeRoom st rid fcs now).1.rooms rid = some room' ∧
      room'.status = "ended" ∧
      room'.finalChips = some fcs ∧
      room'.endedAt = some now ∧
      room'.players = applyFinalChips fcs room.players ∧
      (handleFinalizeRoom st rid fcs now).2 =
        [Emit.roomEnded rid room' (room'.players.map toSummary)] := by
  refine ⟨{ room with
              players := applyFinalChips fcs room.players
              status := "ended"
              finalChips := some fcs
              endedAt := some now },
    ?_, rfl, rfl, rfl, rfl, ?_⟩
  · simp [handleFinalizeRoom, hr, alistGet_alistSet_self]
  · simp [handleFinalizeRoom, hr]

/-- Witness for the amended C3: re-finalizing the concrete ended session
with 200 chips for player P overwrites the settlement and re-broadcasts. -/
theorem c3_refinalize_reapplies_witness :
    ∃ room',
      alistGet (handleFinalizeRoom endedState "R" [⟨"P", 200⟩] 2).1.rooms
        "R" = some room' ∧
      room'.status = "ended" ∧
      room'.finalChips = some [⟨"P", 200⟩] ∧
      room'.endedAt = some 2 ∧
      room'.players = applyFinalChips [⟨"P", 200⟩] endedRoom.players ∧
      (handleFinalizeRoom endedState "R" [⟨"P", 200⟩] 2).2 =
        [Emit.roomEnded "R" room' (room'.players.map toSummary)] :=
  c3_refinalize_reapplies endedState "R" [⟨"P", 200⟩] 2 endedRoom rfl rfl

/-- Counterexample to claim C4 as stated: a `buyin` of -50 is not rejected —
the player's cumulative buy-in drops from 100 to 50, a ledger entry with
amount -50 is appended, and the `buyin` event is broadcast.  (Non-finite
amounts are a float concern outside this integer embedding; the negative
case already refutes the claim.) -/
theorem c4_counterexample :
    ((alistGet (handleBuyin waitingState "R" "P" (-50) none).1.rooms
        "R").bind (fun r => findPlayer r.players "P")).map Player.buyin =
      some 50 ∧
    getTransactions (handleBuyin waitingState "R" "P" (-50) none).1 "R" "P" =
      [{ type := "buyin", amount := -50, note := "买入 -50" }] ∧
    (handleBuyin waitingState "R" "P" (-50) none).2 =
      [Emit.buyinEv "R" "P" (addBuyin (-50) samplePlayer) (-50) none] := by
  decide

/-- Claim C4, amended: neither `buyin` nor `recordResult` validates the
amount; a negative amount is accepted — for `buyin` it is added to the
cumulative buy-in (decreasing it), a transaction carrying the negative
amount is appended to the ledger, and the buy-in event is broadcast. -/
theorem c4_negative_amount_accepted (st : ServerState) (rid pid : String)
    (a : Int) (note : Option String) (room : Room) (p : Player)
    (hr : alistGet st.rooms rid = some room)
    (hp : findPlayer room.players pid = some p)
    (_hneg : a < 0) :
    ∃ room',
      alistGet (handleBuyin st rid pid a note).1.rooms rid = some room' ∧
      findPlayer room'.players pid = some (addBuyin a p) ∧
      getTransactions (handleBuyin st rid pid a note).1 rid pid =
        getTransactions st rid pid ++
          [{ type := "buyin", amount := a,
             note := note.getD ("买入 " ++ toString a) }] ∧
      (handleBuyin st rid pid a note).2 =
        [Emit.buyinEv rid pid (addBuyin a p) a note] := by
  obtain ⟨room', h1, _, h3, h4⟩ :=
    handleBuyin_state st rid pid a note room p hr hp
  exact ⟨room', h1, h3, h4, handleBuyin_emits st rid pid a note room p hr hp⟩

/-- Witness for the amended C4 at amount -50. -/
theorem c4_negative_amount_accepted_witness :
    ∃ room',
      alistGet (handleBuyin waitingState "R" "P" (-50) none).1.rooms "R" =
        some room' ∧
      findPlayer room'.players "P" = some (addBuyin (-50) samplePlayer) ∧
      getTransactions (handleBuyin waitingState "R" "P" (-50) none).1
        "R" "P" =
        getTransactions waitingState "R" "P" ++
          [{ type := "buyin", amount := -50,
             note := (none : Option String).getD
               ("买入 " ++ toString (-50 : Int)) }] ∧
      (handleBuyin waitingState "R" "P" (-50) none).2 =
        [Emit.buyinEv "R" "P" (addBuyin (-50) samplePlayer) (-50) none] :=
  c4_negative_amount_accepted waitingState "R" "P" (-50) none waitingRoom
    samplePlayer rfl rfl (by decide)

/-- Claim C5: for a finalize whose final-chips list names distinct players,
every listed player found in the roster gets their final-chip count set to
the listed amount and their profit set to exactly that amount minus their
cumulative buy-in, while every roster player not listed keeps their record
unchanged — in particular an absent (`none`) final-chip value stays absent
rather than becoming 0. -/
theorem c5_finalize_profit (st : ServerState) (rid : String)
    (fcs : List FinalChip) (now : Nat) (room : Room)
    (hr : alistGet st.rooms rid = some room)
    (hnd : (fcs.map FinalChip.playerId).Nodup) :
    ∃ room',
      alistGet (handleFinalizeRoom st rid fcs now).1.rooms rid = some room' ∧
      (∀ fc ∈ fcs, ∀ p, findPlayer room.players fc.playerId = some p →
        findPlayer room'.players fc.playerId =
          some { p with finalChips := some fc.amount,
                        profit := fc.amount - p.buyin }) ∧
      (∀ pid, pid ∉ fcs.map FinalChip.playerId →
        findPlayer room'.players pid = findPlayer room.players pid) ∧
      (∀ pid p, pid ∉ fcs.map FinalChip.playerId →
        findPlayer room.players pid = some p → p.finalChips = none →
        ∃ q, findPlayer room'.players pid = some q ∧ q.finalChips = none) := by
  have hsame : ∀ pid, pid ∉ fcs.map FinalChip.playerId →
      findPlayer (applyFinalChips fcs room.players) pid =
        findPlayer room.players pid := by
    intro pid hpid
    rw [findPlayer_applyFinalChips]
    cases hfp : findPlayer room.players pid with
    | none => rfl
    | some p =>
        have hid : p.id = pid := findPlayer_id hfp
        have : applyToPlayer fcs p = p :=
          applyToPlayer_not_mem (by rw [hid]; exact hpid)
        simp [this]
  refine ⟨{ room with
              players := applyFinalChips fcs room.players
              status := "ended"
              finalChips := some fcs
              endedAt := some now },
    by simp [handleFinalizeRoom, hr, alistGet_alistSet_self], ?_, ?_, ?_⟩
  · intro fc hfc p hp
    show findPlayer (applyFinalChips fcs room.players) fc.playerId = _
    rw [findPlayer_applyFinalChips, hp]
    have hid : fc.playerId = p.id := (findPlayer_id hp).symm
    simp only [Option.map_some']
    rw [applyToPlayer_eq_setChips hnd hfc hid]
    rfl
  · intro pid hpid
    exact hsame pid hpid
  · intro pid p hpid hp hchips
    refine ⟨p, ?_, hchips⟩
    show findPlayer (applyFinalChips fcs room.players) pid = some p
    rw [hsame pid hpid]
    exact hp

/-- Witness for C5: finalizing a two-player roster with `{A: 150}` gives A
final chips 150 and profit 150 - 100 = 50, and leaves B's record (with its
absent final-chip value) untouched. -/
theorem c5_finalize_profit_witness :
    ∃ room',
      alistGet (handleFinalizeRoom twoState "R" [⟨"A", 150⟩] 7).1.rooms "R" =
        some room' ∧
      (∀ fc ∈ [(⟨"A", 150⟩ : FinalChip)], ∀ p,
        findPlayer twoRoom.players fc.playerId = some p →
        findPlayer room'.players fc.playerId =
          some { p with finalChips := some fc.amount,
                        profit := fc.amount - p.buyin }) ∧
      (∀ pid, pid ∉ ([⟨"A", 150⟩] : List FinalChip).map FinalChip.playerId →
        findPlayer room'.players pid = findPlayer twoRoom.players pid) ∧
      (∀ pid p, pid ∉ ([⟨"A", 150⟩] : List FinalChip).map FinalChip.playerId →
        findPlayer twoRoom.players pid = some p → p.finalChips = none →
        ∃ q, findPlayer room'.players pid = some q ∧ q.finalChips = none) :=
  c5_finalize_profit twoState "R" [⟨"A", 150⟩] 7 twoRoom rfl (by decide)

/-- Counterexample to claim C6 as stated: a `buyin` or `recordResult` naming
a missing session (empty state) or a missing player (id Z) leaves the state
alone but emits nothing at all — in particular no NotFound error event
reaches the caller; the failure is silently swallowed, contradicting the
claim that it is reported. -/
theorem c6_counterexample :
    handleBuyin emptyState "R" "P" 10 none = (emptyState, []) ∧
    handleRecordResult emptyState "R" "P" "win" 10 none = (emptyState, []) ∧
    handleBuyin waitingState "R" "Z" 10 none = (waitingState, []) ∧
    handleRecordResult waitingState "R" "Z" "loss" 10 none =
      (waitingState, []) := by
  decide

/-- Claim C6, amended: a `buyin` or `recordResult` naming a session id that
does not exist, or a player id not in the roster, performs no state
mutation and no broadcast, but no error is reported either — the handler
returns silently with an empty event list. -/
theorem c6_missing_silently_ignored (st : ServerState) (rid pid ty : String)
    (a : Int) (note : Option String) :
    (alistGet st.rooms rid = none →
      handleBuyin st rid pid a note = (st, []) ∧
      handleRecordResult st rid pid ty a note = (st, [])) ∧
    (∀ room, alistGet st.rooms rid = some room →
      findPlayer room.players pid = none →
      handleBuyin st rid pid a note = (st, []) ∧
      handleRecordResult st rid pid ty a note = (st, [])) := by
  constructor
  · intro h
    constructor <;> simp [handleBuyin, handleRecordResult, h]
  · intro room hr hp
    constructor <;> simp [handleBuyin, handleRecordResult, hr, hp]

/-- Witness for the amended C6: both the missing-session and the
missing-player cases at concrete states. -/
theorem c6_missing_silently_ignored_witness :
    (handleBuyin emptyState "R" "P" 10 none = (emptyState, []) ∧
      handleRecordResult emptyState "R" "P" "win" 10 none =
        (emptyState, [])) ∧
    (handleBuyin waitingState "R" "Z" 10 none = (waitingState, []) ∧
      handleRecordResult waitingState "R" "Z" "win" 10 none =
        (waitingState, [])) :=
  ⟨(c6_missing_silently_ignored emptyState "R" "P" "win" 10 none).1 rfl,
   (c6_missing_silently_ignored waitingState "R" "Z" "win" 10 none).2
     waitingRoom rfl rfl⟩

/-- Claim C7: a `joinRoom` against a missing session fails with the
not-found error and a `joinRoom` against an ended session fails with the
room-ended error; in both cases the state is unchanged and the only emitted
event is the error to the originating connection — no broadcast reaches the
session's subscribers. -/
theorem c7_join_errors (st : ServerState) (rid : String)
    (nickname agentRef : Option String) (genId genNick : String) :
    (alistGet st.rooms rid = none →
      handleJoinRoom st rid nickname agentRef genId genNick =
        (st, [Emit.errorMsg "房间不存在"])) ∧
    (∀ room, alistGet st.rooms rid = some room → room.status = "ended" →
      handleJoinRoom st rid nickname agentRef genId genNick =
        (st, [Emit.errorMsg "房间已结束"])) := by
  constructor
  · intro h
    simp [handleJoinRoom, h]
  · intro room hr hs
    have h1 : ("ended" : String) ≠ "waiting" := by decide
    have h2 : ("ended" : String) ≠ "playing" := by decide
    simp [handleJoinRoom, hr, hs, h1, h2]

/-- Witness for C7 at a missing session and at the concrete ended one. -/
theorem c7_join_errors_witness :
    handleJoinRoom emptyState "R" none none "Q" "n2" =
      (emptyState, [Emit.errorMsg "房间不存在"]) ∧
    handleJoinRoom endedState "R" none none "Q" "n2" =
      (endedState, [Emit.errorMsg "房间已结束"]) :=
  ⟨(c7_join_errors emptyState "R" none none "Q" "n2").1 rfl,
   (c7_join_errors endedState "R" none none "Q" "n2").2 endedRoom rfl rfl⟩

/-- Counterexample to claim C8 as stated: a gameplay command (`buyin` or
`recordResult`) against a waiting session leaves its status at `"waiting"` —
no handler ever writes `"playing"`, so the first gameplay command does not
move waiting to playing. -/
theorem c8_counterexample :
    (alistGet waitingState.rooms "R").map Room.status = some "waiting" ∧
    (alistGet (handleBuyin waitingState "R" "P" 50 none).1.rooms "R").map
      Room.status = some "waiting" ∧
    (alistGet (handleRecordResult waitingState "R" "P" "win" 30
        none).1.rooms "R").map Room.status = some "waiting" := by
  decide

/-- Claim C8, amended: no command ever sets status to `"playing"` — `buyin`
preserves the stored status, `recordResult` leaves the session store
entirely untouched, a successful `joinRoom` preserves the status — while
`finalizeRoom` sets status to `"ended"` from any current status, and no
command moves a session out of ended (`joinRoom` on an ended session leaves
the state unchanged and the preserved statuses keep ended ended). -/
theorem c8_status_machine (st : ServerState) (rid pid ty : String)
    (a : Int) (note nickname agentRef : Option String)
    (genId genNick : String) (fcs : List FinalChip) (now : Nat) (room : Room)
    (hr : alistGet st.rooms rid = some room) :
    (alistGet (handleBuyin st rid pid a note).1.rooms rid).map Room.status =
      some room.status ∧
    (handleRecordResult st rid pid ty a note).1.rooms = st.rooms ∧
    ((room.status = "waiting" ∨ room.status = "playing") →
      (alistGet (handleJoinRoom st rid nickname agentRef genId
          genNick).1.rooms rid).map Room.status = some room.status) ∧
    (alistGet (handleFinalizeRoom st rid fcs now).1.rooms rid).map
      Room.status = some "ended" ∧
    (room.status = "ended" →
      (handleJoinRoom st rid nickname agentRef genId genNick).1 = st) := by
  refine ⟨?_, ?_, ?_, ?_, ?_⟩
  · cases hp : findPlayer room.players pid with
    | none => simp [handleBuyin, hr, hp]
    | some p =>
        obtain ⟨room', h1, h2, _, _⟩ :=
          handleBuyin_state st rid pid a note room p hr hp
        rw [h1, Option.map_some', h2]
  · cases hp : findPlayer room.players pid with
    | none => simp [handleRecordResult, hr, hp]
    | some p => simp [handleRecordResult, hr, hp, rooms_saveTransaction]
  · intro hs
    rcases hs with h | h <;>
      simp [handleJoinRoom, hr, h, alistGet_alistSet_self]
  · simp [handleFinalizeRoom, hr, alistGet_alistSet_self]
  · intro hs
    have h1 : ("ended" : String) ≠ "waiting" := by decide
    have h2 : ("ended" : String) ≠ "playing" := by decide
    simp [handleJoinRoom, hr, hs, h1, h2]

/-- Witness for the amended C8 at the concrete waiting and ended states. -/
theorem c8_status_machine_witness :
    (alistGet (handleBuyin waitingState "R" "P" 50 none).1.rooms "R").map
      Room.status = some "waiting" ∧
    (handleRecordResult waitingState "R" "P" "win" 50 none).1.rooms =
      waitingState.rooms ∧
    (alistGet (handleJoinRoom waitingState "R" none none "Q" "n2").1.rooms
      "R").map Room.status = some "waiting" ∧
    (alistGet (handleFinalizeRoom waitingState "R" [] 3).1.rooms "R").map
      Room.status = some "ended" ∧
    (handleJoinRoom endedState "R" none none "Q" "n2").1 = endedState := by
  have h1 := c8_status_machine waitingState "R" "P" "win" 50 none none none
    "Q" "n2" [] 3 waitingRoom rfl
  have h2 := c8_status_machine endedState "R" "P" "win" 50 none none none
    "Q" "n2" [] 3 endedRoom rfl
  exact ⟨h1.1, h1.2.1, h1.2.2.1 (Or.inl rfl), h1.2.2.2.1, h2.2.2.2.2 rfl⟩

/-- Claim C9: a `recordResult` command (any kind) leaves the session store —
and with it the named player's cumulative buy-in and every other field of
every player record — completely unchanged; its only effects are appending
exactly one transaction to that pair's ledger and broadcasting the
`recordResult` event with the unmodified player object. -/
theorem c9_record_result_frame (st : ServerState) (rid pid ty : String)
    (a : Int) (note : Option String) (room : Room) (p : Player)
    (hr : alistGet st.rooms rid = some room)
    (hp : findPlayer room.players pid = some p) :
    (handleRecordResult st rid pid ty a note).1.rooms = st.rooms ∧
    getTransactions (handleRecordResult st rid pid ty a note).1 rid pid =
      getTransactions st rid pid ++
        [{ type := ty, amount := a,
           note := note.getD (if ty = "win" then "赢得 " ++ toString a
             else "输掉 " ++ toString a) }] ∧
    (handleRecordResult st rid pid ty a note).2 =
      [Emit.recordResultEv rid pid p ty a note] := by
  refine ⟨?_, ?_, ?_⟩ <;>
    simp [handleRecordResult, hr, hp, rooms_saveTransaction,
      getTransactions_saveTransaction]

/-- Witness for C9: a win of 30 for the concrete player leaves the session
store untouched and appends one `win` transaction. -/
theorem c9_record_result_frame_witness :
    (handleRecordResult waitingState "R" "P" "win" 30 none).1.rooms =
      waitingState.rooms ∧
    getTransactions (handleRecordResult waitingState "R" "P" "win" 30
        none).1 "R" "P" =
      getTransactions waitingState "R" "P" ++
        [{ type := "win", amount := 30,
           note := (none : Option String).getD
             (if ("win" : String) = "win" then "赢得 " ++ toString (30 : Int)
              else "输掉 " ++ toString (30 : Int)) }] ∧
    (handleRecordResult waitingState "R" "P" "win" 30 none).2 =
      [Emit.recordResultEv "R" "P" samplePlayer "win" 30 none] :=
  c9_record_result_frame waitingState "R" "P" "win" 30 none waitingRoom
    samplePlayer rfl rfl

/-- Claim C10: `joinRoom` initialises every new player with profit 0 (and an
absent final-chip value), so a roster player omitted from the finalize
final-chips list — whose profit field was never overwritten — appears in
the `roomEnded` settlement summary with profit 0 (not an absent value),
while their final-chip value stays absent. -/
theorem c10_profit_initialized (st : ServerState) (rid pid : String)
    (nickname agentRef : Option String) (genId genNick : String)
    (fcs : List FinalChip) (now : Nat) (room : Room) (p : Player)
    (hr : alistGet st.rooms rid = some room) :
    ((room.status = "waiting" ∨ room.status = "playing") →
      ∃ room',
        alistGet (handleJoinRoom st rid nickname agentRef genId
            genNick).1.rooms rid = some room' ∧
        room'.players = room.players ++
          [{ id := genId, nickname := nickname.getD genNick,
             fluxaAgentId := agentRef, buyin := 0, finalChips := none,
             profit := 0 }]) ∧
    (findPlayer room.players pid = some p →
      pid ∉ fcs.map FinalChip.playerId → p.profit = 0 →
      p.finalChips = none →
      ∃ room',
        (handleFinalizeRoom st rid fcs now).2 =
          [Emit.roomEnded rid room' (room'.players.map toSummary)] ∧
        ({ nickname := p.nickname, buyin := p.buyin, finalChips := none,
           profit := 0 } : SummaryEntry) ∈ room'.players.map toSummary) := by
  constructor
  · intro hs
    refine ⟨{ room with
                players := room.players ++
                  [{ id := genId, nickname := nickname.getD genNick,
                     fluxaAgentId := agentRef, buyin := 0,
                     finalChips := none, profit := 0 }] }, ?_, rfl⟩
    rcases hs with h | h <;>
      simp [handleJoinRoom, hr, h, alistGet_alistSet_self]
  · intro hp hnot hprofit hchips
    refine ⟨{ room with
                players := applyFinalChips fcs room.players
                status := "ended"
                finalChips := some fcs
                endedAt := some now },
      by simp [handleFinalizeRoom, hr], ?_⟩
    have hm : p ∈ applyFinalChips fcs room.players :=
      mem_applyFinalChips (findPlayer_mem hp)
        (by rw [findPlayer_id hp]; exact hnot)
    have hts :
        toSummary p =
          ({ nickname := p.nickname, buyin := p.buyin, finalChips := none,
             profit := 0 } : SummaryEntry) := by
      simp [toSummary, hprofit, hchips]
    rw [← hts]
    exact List.mem_map_of_mem toSummary hm

/-- Witness for C10: joining the concrete waiting session appends a
profit-0 player, and finalizing it while omitting player P reports P in the
summary with profit 0 and an absent final-chip value. -/
theorem c10_profit_initialized_witness :
    (∃ room',
      alistGet (handleJoinRoom waitingState "R" none none "Q" "n2").1.rooms
        "R" = some room' ∧
      room'.players = waitingRoom.players ++
        [{ id := "Q", nickname := (none : Option String).getD "n2",
           fluxaAgentId := none, buyin := 0, finalChips := none,
           profit := 0 }]) ∧
    (∃ room',
      (handleFinalizeRoom waitingState "R" [⟨"Z", 50⟩] 9).2 =
        [Emit.roomEnded "R" room' (room'.players.map toSummary)] ∧
      ({ nickname := samplePlayer.nickname, buyin := samplePlayer.buyin,
         finalChips := none, profit := 0 } : SummaryEntry) ∈
        room'.players.map toSummary) := by
  have h := c10_profit_initialized waitingState "R" "P" none none "Q" "n2"
    [⟨"Z", 50⟩] 9 waitingRoom samplePlayer rfl
  exact ⟨h.1 (Or.inl rfl), h.2 rfl (by decide) rfl rfl⟩
